import Mathlib

/-!
Verification of the POI cross-checker radio core against its specification.

The development shallowly embeds the parts of the Rust sources that the
claims speak about:
  * the attestation data model (`Attestation`, `GraphcastMessage`);
  * the compare/prune branch of the scheduler main loop (`src/main.rs`);
  * the read-only query surface helpers (`src/server/model/mod.rs`):
    `comparison_result`'s message filtering, `sender_count_str`,
    `stake_weight_str`, and the `sender_ratio` / `stake_ratio` loops;
  * the attestation-store, comparator and ingestion operations, whose
    definitions live in the `poi_radio` library crate (only their call
    sites are part of these sources); those are modelled from the spec
    and are marked as such in their doc comments.

Machine integers (`u64` block numbers, stake weights) are embedded as
`Nat`; the `i64` timestamps and nonces as `Int`.  Rust `Vec` becomes
`List`; nested `HashMap`s become association lists keyed by the pair;
a Rust function that can panic is embedded as an `Option`-returning
function, with `none` standing for the panic.
-/

namespace PoiRadio

/-- An attestation: `{ npoi, stake_weight, senders }` (`src/main.rs` literal at
the send branch; for local attestations `senders` is empty). -/
structure Attestation where
  npoi : String
  stake_weight : Nat
  senders : List String
deriving DecidableEq, Repr

/-- The fields of the validated gossip envelope the embedded code inspects:
`identifier`, `block_number`, the signer's recovered address and its
monotone `nonce`, and the payload's `npoi`. -/
structure GraphcastMessage where
  identifier : String
  block_number : Nat
  nonce : Int
  signer : String
  npoi : String
deriving DecidableEq, Repr

/-- Opaque error produced by `process_messages` / `compare_attestations`. -/
inductive AttestationError where
  | buildFailed (reason : String)
deriving DecidableEq, Repr

/-- The `ComparisonResult` enum of `src/main.rs`: `Match`, `NotFound` and
`Divergent`, each carrying a summary string (`Match` is renamed `matched`
because `match` is a keyword). -/
inductive ComparisonResultV where
  | matched (msg : String)
  | notFound (msg : String)
  | divergent (msg : String)
deriving DecidableEq, Repr

/-- The effect of the main loop's compare branch on the remote message
buffer (`src/main.rs` lines 256-312): on every `Ok` verdict the buffer is
pruned with `retain(|msg| msg.block_number != compare_block || msg.identifier != id)`
(the retain appears verbatim in each of the three `Ok` arms); the `Err`
arm only logs and leaves the buffer alone. -/
def compare_branch_retain (msgs : List GraphcastMessage) (id : String)
    (compare_block : Nat) (result : Except AttestationError ComparisonResultV) :
    List GraphcastMessage :=
  match result with
  | .ok (.matched _) =>
      msgs.filter (fun m => !(m.block_number == compare_block) || !(m.identifier == id))
  | .ok (.notFound _) =>
      msgs.filter (fun m => !(m.block_number == compare_block) || !(m.identifier == id))
  | .ok (.divergent _) =>
      msgs.filter (fun m => !(m.block_number == compare_block) || !(m.identifier == id))
  | .error _ => msgs

/-- Events observable in one iteration of the per-deployment body of the
main loop. -/
inductive TickEvent where
  | compare (id : String) (block : Nat)
  | send (id : String) (block : Nat)
deriving DecidableEq, BEq, Repr

/-- The order of the two gated steps in the per-deployment body of the
main loop (`src/main.rs` lines 208-369): first the compare branch, gated
on `Utc::now().timestamp() >= comparison_trigger`, then the send branch,
gated on `latest_block.number >= message_block`. -/
def deployment_tick_events (now comparison_trigger : Int)
    (latest_block message_block : Nat) (id : String) (compare_block : Nat) :
    List TickEvent :=
  (if now ≥ comparison_trigger then [TickEvent.compare id compare_block] else []) ++
  (if latest_block ≥ message_block then [TickEvent.send id message_block] else [])

/-- C1: after a comparison for `(d, b)` completes with any verdict kind,
the pruned buffer holds no message with `identifier = d ∧ block_number = b`,
and a message survives exactly when it was in the buffer and is for a
different (deployment, block) pair. -/
theorem comparison_prunes_exactly (msgs : List GraphcastMessage) (id : String)
    (b : Nat) (v : ComparisonResultV) :
    (∀ m ∈ compare_branch_retain msgs id b (Except.ok v),
        ¬ (m.identifier = id ∧ m.block_number = b)) ∧
    (∀ m : GraphcastMessage,
        m ∈ compare_branch_retain msgs id b (Except.ok v) ↔
          m ∈ msgs ∧ ¬ (m.identifier = id ∧ m.block_number = b)) := by
  cases v <;>
    refine ⟨?_, ?_⟩ <;>
      simp [compare_branch_retain, List.mem_filter] <;>
        intro m _ <;> tauto

/-- C8: when `compare_attestations` returns an error, the main loop leaves
the remote message buffer unchanged, so the same messages are available on
a later tick. -/
theorem comparison_error_no_prune (msgs : List GraphcastMessage) (id : String)
    (b : Nat) (e : AttestationError) :
    compare_branch_retain msgs id b (Except.error e) = msgs := rfl

/-- C7 counterexample: with both gates open (`now = 10 ≥ trigger = 0`,
`latest_block = 100 ≥ message_block = 50`) the per-deployment tick body
runs the compare step first and the send step second, so the send step is
not executed before the compare step. -/
theorem tick_send_before_compare_cex :
    deployment_tick_events 10 0 100 50 "Qm" 7 =
      [TickEvent.compare "Qm" 7, TickEvent.send "Qm" 50] ∧
    List.indexOf (TickEvent.compare "Qm" 7) (deployment_tick_events 10 0 100 50 "Qm" 7) <
      List.indexOf (TickEvent.send "Qm" 50) (deployment_tick_events 10 0 100 50 "Qm" 7) := by
  constructor <;> decide

/-- C7 amended: within each scheduler tick, for each tracked deployment,
whenever both steps fire the compare step executes strictly before the
send step — the event trace is `[compare, send]`. -/
theorem tick_compare_before_send (now trigger : Int) (latest mb : Nat)
    (id : String) (cb : Nat) (hc : now ≥ trigger) (hs : latest ≥ mb) :
    deployment_tick_events now trigger latest mb id cb =
      [TickEvent.compare id cb, TickEvent.send id mb] ∧
    (deployment_tick_events now trigger latest mb id cb).get? 0 =
      some (TickEvent.compare id cb) ∧
    (deployment_tick_events now trigger latest mb id cb).get? 1 =
      some (TickEvent.send id mb) := by
  simp [deployment_tick_events, hc, hs]

/-- Witness for `tick_compare_before_send` at concrete gate values. -/
theorem tick_compare_before_send_witness :
    deployment_tick_events 10 0 100 50 "Qm" 7 =
      [TickEvent.compare "Qm" 7, TickEvent.send "Qm" 50] ∧
    (deployment_tick_events 10 0 100 50 "Qm" 7).get? 0 =
      some (TickEvent.compare "Qm" 7) ∧
    (deployment_tick_events 10 0 100 50 "Qm" 7).get? 1 =
      some (TickEvent.send "Qm" 50) :=
  tick_compare_before_send 10 0 100 50 "Qm" 7 (by decide) (by decide)

/-! ### Query surface (`src/server/model/mod.rs`) -/

/-- The net effect on a `String` of Rust `String::pop`: the last character
is removed. -/
def strPop (s : String) : String := String.mk s.data.dropLast

/-- Stable insertion of an attestation into a list kept in descending
stake-weight order: existing elements with stake at least the new one's
stay in front (the stable semantics of Rust
`sort_by(|a, b| b.stake_weight.cmp(&a.stake_weight))`). -/
def insertByStake (a : Attestation) : List Attestation → List Attestation
  | [] => [a]
  | b :: t => if b.stake_weight ≥ a.stake_weight then b :: insertByStake a t else a :: b :: t

/-- Stable sort by descending stake weight, the comparator used on
`temp_attestations` in `sender_count_str` / `stake_weight_str`. -/
def sortByStakeDesc (l : List Attestation) : List Attestation :=
  l.foldr insertByStake []

/-- `sender_count_str` (`src/server/model/mod.rs` lines 209-227): sorts a
copy `temp_attestations` by descending stake weight, but the rendering
loop iterates the original `attestations` slice, so the sorted copy is
dead; each attestation contributes its sender count followed by `"!/"`
when its npoi equals the local npoi and `"/"` otherwise, and `output.pop()`
removes the single trailing character. -/
def sender_count_str (attestations : List Attestation) (local_npoi : String) : String :=
  let _temp_attestations := sortByStakeDesc attestations
  let output := attestations.foldl
    (fun out att =>
      let separator := if att.npoi == local_npoi then "!/" else "/"
      out ++ toString att.senders.length ++ separator) ""
  strPop output

/-- `stake_weight_str` (`src/server/model/mod.rs` lines 230-247): same
shape as `sender_count_str` but renders `att.stake_weight` instead of the
sender count; the descending sort again targets an unused copy. -/
def stake_weight_str (attestations : List Attestation) (local_npoi : String) : String :=
  let _temp_attestations := sortByStakeDesc attestations
  let output := attestations.foldl
    (fun out att =>
      let separator := if att.npoi == local_npoi then "!/" else "/"
      out ++ toString att.stake_weight ++ separator) ""
  strPop output

/-- The entry `sender_count_str` renders for one attestation. -/
def sender_entry (local_npoi : String) (att : Attestation) : String :=
  toString att.senders.length ++ (if att.npoi == local_npoi then "!/" else "/")

/-- The entry `stake_weight_str` renders for one attestation. -/
def stake_entry (local_npoi : String) (att : Attestation) : String :=
  toString att.stake_weight ++ (if att.npoi == local_npoi then "!/" else "/")

/-- Concatenation of the rendered entries of a list, in list order. -/
def concatMap (f : α → String) : List α → String
  | [] => ""
  | x :: xs => f x ++ concatMap f xs

lemma foldl_append_eq_concatMap (f : α → String) (l : List α) (s : String) :
    l.foldl (fun out x => out ++ f x) s = s ++ concatMap f l := by
  induction l generalizing s with
  | nil => simp [concatMap]
  | cons a t ih =>
      show t.foldl (fun out x => out ++ f x) (s ++ f a) = s ++ concatMap f (a :: t)
      rw [ih, concatMap]
      rw [String.ext_iff]
      simp [String.data_append]

lemma concatMap_append (f : α → String) (l₁ l₂ : List α) :
    concatMap f (l₁ ++ l₂) = concatMap f l₁ ++ concatMap f l₂ := by
  induction l₁ with
  | nil =>
      rw [String.ext_iff]
      simp [concatMap, String.data_append]
  | cons a t ih =>
      rw [String.ext_iff] at ih ⊢
      simp [concatMap, String.data_append] at ih ⊢
      exact ih

lemma sender_count_str_eq (attestations : List Attestation) (local_npoi : String) :
    sender_count_str attestations local_npoi =
      strPop (concatMap (sender_entry local_npoi) attestations) := by
  unfold sender_count_str
  rw [show (fun (out : String) att =>
        let separator := if att.npoi == local_npoi then "!/" else "/"
        out ++ toString att.senders.length ++ separator) =
      (fun (out : String) att => out ++ sender_entry local_npoi att) from ?_]
  · rw [foldl_append_eq_concatMap]
    rw [String.ext_iff]
    simp [strPop, String.data_append]
  · funext out att
    show out ++ toString att.senders.length ++ _ = out ++ sender_entry local_npoi att
    rw [String.ext_iff]
    simp [sender_entry, String.data_append]

lemma stake_weight_str_eq (attestations : List Attestation) (local_npoi : String) :
    stake_weight_str attestations local_npoi =
      strPop (concatMap (stake_entry local_npoi) attestations) := by
  unfold stake_weight_str
  rw [show (fun (out : String) att =>
        let separator := if att.npoi == local_npoi then "!/" else "/"
        out ++ toString att.stake_weight ++ separator) =
      (fun (out : String) att => out ++ stake_entry local_npoi att) from ?_]
  · rw [foldl_append_eq_concatMap]
    rw [String.ext_iff]
    simp [strPop, String.data_append]
  · funext out att
    show out ++ toString att.stake_weight ++ _ = out ++ stake_entry local_npoi att
    rw [String.ext_iff]
    simp [stake_entry, String.data_append]

/-- C4: evaluation at the failing input.  With attestations listed in
ascending stake order (stakes 1 then 2) and a local npoi matching
neither, both render functions emit the entries in the input order —
sender counts `0/1` and stake weights `1/2` — while the descending-stake
order the claim (and the functions' own doc comments) demand would put
the stake-2 entry first (`1/0`, resp. `2/1`): the code sorts the copy
`temp_attestations` and then iterates the original slice. -/
theorem ratio_strings_desc_order_cex :
    sender_count_str
        [⟨"0xaa", 1, []⟩, ⟨"0xbb", 2, ["s1"]⟩] "0xzz" = "0/1" ∧
    stake_weight_str
        [⟨"0xaa", 1, []⟩, ⟨"0xbb", 2, ["s1"]⟩] "0xzz" = "1/2" ∧
    sortByStakeDesc [⟨"0xaa", 1, []⟩, ⟨"0xbb", 2, ["s1"]⟩] =
        [⟨"0xbb", 2, ["s1"]⟩, ⟨"0xaa", 1, []⟩] ∧
    sender_count_str
        [⟨"0xbb", 2, ["s1"]⟩, ⟨"0xaa", 1, []⟩] "0xzz" = "1/0" ∧
    ("0/1" : String) ≠ "1/0" := by
  refine ⟨?_, ?_, ?_, ?_, ?_⟩ <;> decide

/-- What the render functions actually do: each emits one entry per
attestation — the sender count (resp. stake weight) followed by `/`,
with `!` before the slash on entries whose npoi equals the local npoi —
concatenated in the order of the input list (the descending-stake sort is
applied to an unused copy), with the single trailing separator character
removed. -/
theorem ratio_strings_one_entry_each (attestations : List Attestation)
    (local_npoi : String) :
    sender_count_str attestations local_npoi =
      strPop (concatMap (sender_entry local_npoi) attestations) ∧
    stake_weight_str attestations local_npoi =
      strPop (concatMap (stake_entry local_npoi) attestations) :=
  ⟨sender_count_str_eq attestations local_npoi,
   stake_weight_str_eq attestations local_npoi⟩

lemma concatMap_singleton (f : α → String) (x : α) : concatMap f [x] = f x := by
  rw [String.ext_iff]
  simp [concatMap, String.data_append]

lemma strPop_append_bang (x cnt : String) :
    (strPop (x ++ (cnt ++ "!/"))).data.getLast? = some '!' := by
  have h : (x ++ (cnt ++ "!/")).data = (x.data ++ cnt.data ++ ['!']) ++ ['/'] := by
    simp [String.data_append]
  simp only [strPop, h, List.dropLast_concat, List.getLast?_concat]

/-- C9: when the last attestation of a non-empty input list has the local
npoi, the rendered entry ends in `"!/"`, and `output.pop()` removes only
the final `'/'`, so both `sender_count_str` and `stake_weight_str` return
a string whose last character is `'!'`. -/
theorem ratio_strings_end_with_bang (atts : List Attestation)
    (local_npoi : String) (a : Attestation) (hlast : atts.getLast? = some a)
    (hmatch : a.npoi = local_npoi) :
    (sender_count_str atts local_npoi).data.getLast? = some '!' ∧
    (stake_weight_str atts local_npoi).data.getLast? = some '!' := by
  obtain ⟨t, rfl⟩ := List.getLast?_eq_some_iff.mp hlast
  have hs : sender_entry local_npoi a = toString a.senders.length ++ "!/" := by
    simp [sender_entry, hmatch]
  have hw : stake_entry local_npoi a = toString a.stake_weight ++ "!/" := by
    simp [stake_entry, hmatch]
  constructor
  · rw [sender_count_str_eq, concatMap_append, concatMap_singleton, hs]
    exact strPop_append_bang _ _
  · rw [stake_weight_str_eq, concatMap_append, concatMap_singleton, hw]
    exact strPop_append_bang _ _

/-- Witness for `ratio_strings_end_with_bang` on a one-element list whose
npoi matches the local npoi. -/
theorem ratio_strings_end_with_bang_witness :
    (sender_count_str [⟨"0xaa", 1, []⟩] "0xaa").data.getLast? = some '!' ∧
    (stake_weight_str [⟨"0xaa", 1, []⟩] "0xaa").data.getLast? = some '!' :=
  ratio_strings_end_with_bang [⟨"0xaa", 1, []⟩] "0xaa" ⟨"0xaa", 1, []⟩
    (by decide) (by decide)

/-- The `comparison_result(deployment, block)` query resolver
(`src/server/model/mod.rs` lines 115-165): it clones the remote message
buffer out of the persisted state, filters the clone with
`m.block_number == block` only (the `deployment` argument is not used in
the filter), feeds the filtered clone to `process_messages` and
`compare_attestations`, and never writes the buffer back.  The embedding
returns the pair (messages fed to the aggregator, buffer after the
query). -/
def comparison_result_query (msgs : List GraphcastMessage) (deployment : String)
    (block : Nat) : List GraphcastMessage × List GraphcastMessage :=
  (msgs.filter (fun m => m.block_number == block), msgs)

/-- C3: evaluation at the failing input.  A buffered message for
deployment `"QmOther"` at block 5 is fed to the aggregator by
`comparison_result("QmDep", 5)`, even though its identifier differs from
the queried deployment: the resolver's filter checks `block_number` only,
dropping the `identifier` conjunct that the main loop's compare branch
applies. -/
theorem comparison_result_feed_cex :
    (comparison_result_query [⟨"QmOther", 5, 0, "0xs1", "0xaa"⟩] "QmDep" 5).1 =
      [⟨"QmOther", 5, 0, "0xs1", "0xaa"⟩] ∧
    ("QmOther" : String) ≠ "QmDep" := by
  refine ⟨?_, ?_⟩ <;> decide

/-- What `comparison_result(d, b)` actually does: it feeds the aggregator
exactly the buffered messages with `block_number = b` — regardless of
identifier — and leaves the remote message buffer unchanged. -/
theorem comparison_result_feed_and_buffer (msgs : List GraphcastMessage)
    (d : String) (b : Nat) :
    (∀ m : GraphcastMessage,
        m ∈ (comparison_result_query msgs d b).1 ↔ m ∈ msgs ∧ m.block_number = b) ∧
    (comparison_result_query msgs d b).2 = msgs := by
  refine ⟨fun m => ?_, rfl⟩
  simp [comparison_result_query, List.mem_filter]

/-- The result-type tag of the query surface's `ComparisonResult` struct
(used by `filter_results`). -/
inductive ComparisonResultType where
  | matchT
  | divergentT
  | notFoundT
  | buildFailedT
deriving DecidableEq, Repr

/-- The query surface's `ComparisonResult` struct, with the fields the
resolvers read: `deployment`, `block_number`, `result_type`,
`local_attestation` (an `Option`) and the remote `attestations`. -/
structure ComparisonResultS where
  deployment : String
  block_number : Nat
  result_type : ComparisonResultType
  local_attestation : Option Attestation
  attestations : List Attestation
deriving DecidableEq, Repr

/-- The `CompareRatio` rows returned by `sender_ratio` / `stake_ratio`. -/
structure CompareRatio where
  deployment : String
  block_number : Nat
  compare_ratio : String
deriving DecidableEq, Repr

/-- The loop of the `sender_ratio` resolver (`src/server/model/mod.rs`
lines 178-184) over the already-filtered comparison results: each
iteration calls `r.local_attestation.unwrap()`; the panic of `unwrap` on
`None` is embedded as `none`. -/
def sender_ratio (res : List ComparisonResultS) : Option (List CompareRatio) :=
  res.foldlM
    (fun ratios r =>
      r.local_attestation.map (fun la =>
        ratios ++ [⟨r.deployment, r.block_number,
                    sender_count_str r.attestations la.npoi⟩]))
    []

/-- The loop of the `stake_ratio` resolver (`src/server/model/mod.rs`
lines 198-204), identical to `sender_ratio` but rendering stake weights. -/
def stake_ratio (res : List ComparisonResultS) : Option (List CompareRatio) :=
  res.foldlM
    (fun ratios r =>
      r.local_attestation.map (fun la =>
        ratios ++ [⟨r.deployment, r.block_number,
                    stake_weight_str r.attestations la.npoi⟩]))
    []

lemma foldlM_option_isSome {β γ : Type} (f : γ → β → Option γ) (l : List β)
    (init : γ) (h : ∀ b ∈ l, ∀ acc : γ, (f acc b).isSome) :
    (l.foldlM f init).isSome := by
  induction l generalizing init with
  | nil => rfl
  | cons x t ih =>
      have hx := h x (List.mem_cons_self x t) init
      obtain ⟨c, hc⟩ := Option.isSome_iff_exists.mp hx
      show ((f init x).bind fun b => t.foldlM f b).isSome
      rw [hc]
      exact ih c (fun b hb acc => h b (List.mem_cons_of_mem x hb) acc)

/-- C10: the ratio resolvers are partial — they return a value whenever
every filtered comparison result carries `some` local attestation, and on
an input containing a result with `local_attestation = none` the `unwrap`
panics (embedded: both resolvers return `none` instead of an error). -/
theorem sender_stake_ratio_partial :
    (∀ res : List ComparisonResultS,
        (∀ r ∈ res, r.local_attestation.isSome) →
          (sender_ratio res).isSome ∧ (stake_ratio res).isSome) ∧
    sender_ratio [⟨"QmDep", 5, ComparisonResultType.notFoundT, none, []⟩] = none ∧
    stake_ratio [⟨"QmDep", 5, ComparisonResultType.notFoundT, none, []⟩] = none := by
  refine ⟨fun res h => ⟨?_, ?_⟩, rfl, rfl⟩ <;>
    · apply foldlM_option_isSome
      intro b hb acc
      obtain ⟨la, hla⟩ := Option.isSome_iff_exists.mp (h b hb)
      simp [hla]

/-- Witness for `sender_stake_ratio_partial` on a one-result list whose
local attestation is present. -/
theorem sender_stake_ratio_partial_witness :
    (sender_ratio [⟨"QmDep", 5, ComparisonResultType.matchT,
        some ⟨"0xaa", 2, []⟩, [⟨"0xaa", 1, ["0xs1"]⟩]⟩]).isSome ∧
    (stake_ratio [⟨"QmDep", 5, ComparisonResultType.matchT,
        some ⟨"0xaa", 2, []⟩, [⟨"0xaa", 1, ["0xs1"]⟩]⟩]).isSome :=
  sender_stake_ratio_partial.1
    [⟨"QmDep", 5, ComparisonResultType.matchT,
        some ⟨"0xaa", 2, []⟩, [⟨"0xaa", 1, ["0xs1"]⟩]⟩]
    (by decide)

/-! ### Attestation store, ingestion and comparator

The definitions of `save_local_attestation`, the ingestion handler's
nonce check and `compare_attestations` live in the `poi_radio` library
crate, which is not among these sources — only their call sites are.
They are modelled from the spec below, as their doc comments state. -/

/-- `LocalAttestationsMap`: `deployment → block_number → Attestation`,
embedded as an association list keyed by the (deployment, block) pair. -/
abbrev LocalAttestationsMap := List ((String × Nat) × Attestation)

/-- `get_local(d, b)`: read-only lookup in the local attestation store. -/
def get_local (m : LocalAttestationsMap) (d : String) (b : Nat) : Option Attestation :=
  (m.find? (fun p => p.1 == (d, b))).map (·.2)

/-- The failure of a second save at the same (deployment, block). -/
inductive StoreError where
  | alreadyAttested
deriving DecidableEq, Repr

/-- Modelled from the spec: `save_local_attestation` is defined in the
`poi_radio` library crate, which is not among these sources (only its
call sites in `src/main.rs` and the integration-test harness are).
Spec §4.A: "`save_local(att, d, b)` — installs `att` under (d, b); if a
prior value exists, fails with `AlreadyAttested`". -/
def save_local_attestation (m : LocalAttestationsMap) (att : Attestation)
    (d : String) (b : Nat) : Except StoreError LocalAttestationsMap :=
  if (get_local m d b).isSome then Except.error StoreError.alreadyAttested
  else Except.ok (m ++ [((d, b), att)])

/-- The store the caller holds after a call to `save_local_attestation`:
the new store on success, the old one on failure. -/
def save_local_apply (m : LocalAttestationsMap) (att : Attestation)
    (d : String) (b : Nat) : LocalAttestationsMap :=
  match save_local_attestation m att d b with
  | Except.ok m' => m'
  | Except.error _ => m

/-- C5: when a prior attestation is stored at (d, b), a second
`save_local_attestation` fails with `AlreadyAttested` and the store the
caller is left with still holds the prior attestation at (d, b). -/
theorem save_local_at_most_once (m : LocalAttestationsMap)
    (att prior : Attestation) (d : String) (b : Nat)
    (h : get_local m d b = some prior) :
    save_local_attestation m att d b = Except.error StoreError.alreadyAttested ∧
    get_local (save_local_apply m att d b) d b = some prior := by
  have he : save_local_attestation m att d b =
      Except.error StoreError.alreadyAttested := by
    simp [save_local_attestation, h]
  exact ⟨he, by simp [save_local_apply, he, h]⟩

/-- Witness for `save_local_at_most_once`: a store holding an attestation
for `("QmDep", 100)` rejects a second save there. -/
theorem save_local_at_most_once_witness :
    save_local_attestation [(("QmDep", 100), ⟨"0xaa", 5, []⟩)]
        ⟨"0xbb", 5, []⟩ "QmDep" 100 = Except.error StoreError.alreadyAttested ∧
    get_local (save_local_apply [(("QmDep", 100), ⟨"0xaa", 5, []⟩)]
        ⟨"0xbb", 5, []⟩ "QmDep" 100) "QmDep" 100 = some ⟨"0xaa", 5, []⟩ :=
  save_local_at_most_once [(("QmDep", 100), ⟨"0xaa", 5, []⟩)]
    ⟨"0xbb", 5, []⟩ ⟨"0xaa", 5, []⟩ "QmDep" 100 (by decide)

/-- The ingestion rejection kinds of spec §4.F. -/
inductive IngestError where
  | invalid
  | unauthenticated
  | unregistered
  | inconsistent
  | stale
deriving DecidableEq, Repr

/-- The nonce of the most recently accepted message from one
(signer, identifier), read off the append-only buffer. -/
def newest_accepted_nonce (msgs : List GraphcastMessage) (signer id : String) :
    Option Int :=
  ((msgs.filter (fun m => m.signer == signer && m.identifier == id)).getLast?).map
    (·.nonce)

/-- Modelled from the spec: the anti-replay nonce check of the ingestion
handler (`attestation_handler`), whose definition is in the `poi_radio`
library crate, not among these sources (only its registration at
`src/main.rs` line 104 is).  Spec §4.F.2 and invariant §8.4: a message
whose nonce is ≤ the newest accepted nonce from the same
(signer, identifier) is rejected as `Stale`; otherwise the validated
record is appended to the buffer. -/
def ingest_message (msgs : List GraphcastMessage) (m : GraphcastMessage) :
    Except IngestError (List GraphcastMessage) :=
  match newest_accepted_nonce msgs m.signer m.identifier with
  | some n =>
      if m.nonce ≤ n then Except.error IngestError.stale
      else Except.ok (msgs ++ [m])
  | none => Except.ok (msgs ++ [m])

/-- The buffer the caller holds after an ingestion attempt: the new buffer
on acceptance, the old one on rejection. -/
def ingest_apply (msgs : List GraphcastMessage) (m : GraphcastMessage) :
    List GraphcastMessage :=
  match ingest_message msgs m with
  | Except.ok l => l
  | Except.error _ => msgs

/-- C6: a message whose nonce is ≤ the nonce of the most recently accepted
message from the same (signer, identifier) is rejected as `Stale` and the
remote message buffer is left unchanged — the message is not appended. -/
theorem stale_nonce_rejected (msgs : List GraphcastMessage)
    (m : GraphcastMessage) (n : Int)
    (h1 : newest_accepted_nonce msgs m.signer m.identifier = some n)
    (h2 : m.nonce ≤ n) :
    ingest_message msgs m = Except.error IngestError.stale ∧
    ingest_apply msgs m = msgs := by
  have he : ingest_message msgs m = Except.error IngestError.stale := by
    simp [ingest_message, h1, h2]
  exact ⟨he, by simp [ingest_apply, he]⟩

/-- Witness for `stale_nonce_rejected`: after accepting nonce 5 from
signer `0xs1` on `QmDep`, a nonce-4 message from the same pair is stale
(spec scenario S5). -/
theorem stale_nonce_rejected_witness :
    ingest_message [⟨"QmDep", 100, 5, "0xs1", "0xaa"⟩]
        ⟨"QmDep", 100, 4, "0xs1", "0xaa"⟩ = Except.error IngestError.stale ∧
    ingest_apply [⟨"QmDep", 100, 5, "0xs1", "0xaa"⟩]
        ⟨"QmDep", 100, 4, "0xs1", "0xaa"⟩ = [⟨"QmDep", 100, 5, "0xs1", "0xaa"⟩] :=
  stale_nonce_rejected [⟨"QmDep", 100, 5, "0xs1", "0xaa"⟩]
    ⟨"QmDep", 100, 4, "0xs1", "0xaa"⟩ 5 (by decide) (by decide)

/-- Of two attestations, the one preferred by the comparator's selection
rule: strictly larger stake weight wins; at equal stake the
lexicographically smaller npoi wins; otherwise keep the first. -/
def pickBetter (a b : Attestation) : Attestation :=
  if b.stake_weight > a.stake_weight ∨
      (b.stake_weight = a.stake_weight ∧ b.npoi < a.npoi) then b else a

/-- The heaviest remote attestation: maximal stake weight, ties broken by
lexicographic order of npoi; `none` on an empty list. -/
def selectHeaviest : List Attestation → Option Attestation
  | [] => none
  | x :: xs => some (xs.foldl pickBetter x)

/-- The comparator's verdicts, per spec §3 and §4.D: `Match`,
`Divergent` (carrying the local npoi, the heaviest remote npoi and the
full sorted remote list) and `NotFound` with a reason. -/
inductive CompareOutcome where
  | matched (deployment : String) (block : Nat) (npoi : String)
  | divergent (deployment : String) (block : Nat)
      (local_npoi remote_npoi : String) (remotes : List Attestation)
  | notFound (deployment : String) (block : Nat) (reason : String)
deriving DecidableEq, Repr

/-- Modelled from the spec: `compare_attestations` is defined in the
`poi_radio` library crate, not among these sources (only its call sites
in `src/main.rs`, the query surface and the test harness are).
Spec §4.D, rules in order: (1) no local attestation at (d, b) →
`NotFound`; (2) no remotes → `NotFound`; (3) select the heaviest remote,
ties broken by lexicographic order of npoi (read here as the
lexicographically least npoi among the maximal-stake remotes);
(4) heaviest npoi equals the local npoi → `Match`; (5) otherwise
`Divergent`. -/
def compare_attestations (block : Nat) (remotes : List Attestation)
    (locals : LocalAttestationsMap) (d : String) : CompareOutcome :=
  match get_local locals d block with
  | none => CompareOutcome.notFound d block "no local attestation"
  | some loc =>
    match selectHeaviest remotes with
    | none => CompareOutcome.notFound d block "no remote attestations"
    | some heaviest =>
      if heaviest.npoi = loc.npoi then CompareOutcome.matched d block heaviest.npoi
      else CompareOutcome.divergent d block loc.npoi heaviest.npoi
        (sortByStakeDesc remotes)

/-- `s` is at least as good as `r` under the selection rule: strictly
more stake, or equal stake and an npoi no larger lexicographically. -/
def Dominates (s r : Attestation) : Prop :=
  r.stake_weight < s.stake_weight ∨
    (r.stake_weight = s.stake_weight ∧ s.npoi ≤ r.npoi)

lemma dominates_refl (a : Attestation) : Dominates a a :=
  Or.inr ⟨rfl, le_refl _⟩

lemma dominates_trans {c b a : Attestation} (h1 : Dominates c b)
    (h2 : Dominates b a) : Dominates c a := by
  rcases h1 with h1 | ⟨h1e, h1n⟩
  · rcases h2 with h2 | ⟨h2e, _⟩
    · exact Or.inl (lt_trans h2 h1)
    · exact Or.inl (h2e ▸ h1)
  · rcases h2 with h2 | ⟨h2e, h2n⟩
    · exact Or.inl (h1e ▸ h2)
    · exact Or.inr ⟨h2e.trans h1e, le_trans h1n h2n⟩

lemma pickBetter_dominates_left (a b : Attestation) :
    Dominates (pickBetter a b) a := by
  unfold pickBetter
  split
  · next h =>
      rcases h with h | ⟨he, hn⟩
      · exact Or.inl h
      · exact Or.inr ⟨he.symm, le_of_lt hn⟩
  · exact dominates_refl a

lemma pickBetter_dominates_right (a b : Attestation) :
    Dominates (pickBetter a b) b := by
  unfold pickBetter
  split
  · exact dominates_refl b
  · next h =>
      push_neg at h
      obtain ⟨h1, h2⟩ := h
      rcases lt_or_eq_of_le h1 with hlt | heq
      · exact Or.inl hlt
      · exact Or.inr ⟨heq, not_lt.mp (h2 heq)⟩

lemma pickBetter_mem (a b : Attestation) :
    pickBetter a b = a ∨ pickBetter a b = b := by
  unfold pickBetter
  split
  · exact Or.inr rfl
  · exact Or.inl rfl

lemma foldl_pickBetter_spec (xs : List Attestation) (a : Attestation) :
    (xs.foldl pickBetter a = a ∨ xs.foldl pickBetter a ∈ xs) ∧
    Dominates (xs.foldl pickBetter a) a ∧
    (∀ r ∈ xs, Dominates (xs.foldl pickBetter a) r) := by
  induction xs generalizing a with
  | nil => exact ⟨Or.inl rfl, dominates_refl a, by simp⟩
  | cons x t ih =>
      obtain ⟨ihmem, ihdom, ihall⟩ := ih (pickBetter a x)
      have hfold : (x :: t).foldl pickBetter a = t.foldl pickBetter (pickBetter a x) := rfl
      refine ⟨?_, ?_, ?_⟩
      · rw [hfold]
        rcases ihmem with hm | hm
        · rcases pickBetter_mem a x with hp | hp
          · exact Or.inl (hm.trans hp)
          · exact Or.inr (by rw [hm, hp]; exact List.mem_cons_self x t)
        · exact Or.inr (List.mem_cons_of_mem x hm)
      · rw [hfold]
        exact dominates_trans ihdom (pickBetter_dominates_left a x)
      · intro r hr
        rw [hfold]
        rcases List.mem_cons.mp hr with hrx | hrt
        · subst hrx
          exact dominates_trans ihdom (pickBetter_dominates_right a r)
        · exact ihall r hrt

/-- C2: with a local attestation stored at (d, b) and a non-empty remote
list, the comparator selects a remote attestation of maximal stake weight
— ties broken by lexicographic order of npoi — and returns `Match`
exactly when the selected npoi equals the local npoi, `Divergent`
otherwise. -/
theorem comparator_selects_heaviest (block : Nat) (remotes : List Attestation)
    (locals : LocalAttestationsMap) (d : String) (loc : Attestation)
    (hne : remotes ≠ []) (hloc : get_local locals d block = some loc) :
    ∃ sel, selectHeaviest remotes = some sel ∧ sel ∈ remotes ∧
      (∀ r ∈ remotes, r.stake_weight < sel.stake_weight ∨
        (r.stake_weight = sel.stake_weight ∧ sel.npoi ≤ r.npoi)) ∧
      (sel.npoi = loc.npoi →
        compare_attestations block remotes locals d =
          CompareOutcome.matched d block sel.npoi) ∧
      (sel.npoi ≠ loc.npoi →
        compare_attestations block remotes locals d =
          CompareOutcome.divergent d block loc.npoi sel.npoi
            (sortByStakeDesc remotes)) := by
  match remotes, hne with
  | x :: xs, _ =>
    obtain ⟨hmem, hdom, hall⟩ := foldl_pickBetter_spec xs x
    refine ⟨xs.foldl pickBetter x, rfl, ?_, ?_, ?_, ?_⟩
    · rcases hmem with hm | hm
      · rw [hm]; exact List.mem_cons_self x xs
      · exact List.mem_cons_of_mem x hm
    · intro r hr
      rcases List.mem_cons.mp hr with hrx | hrt
      · subst hrx; exact hdom
      · exact hall r hrt
    · intro hx
      simp [compare_attestations, hloc, selectHeaviest, hx]
    · intro hx
      simp [compare_attestations, hloc, selectHeaviest, hx]

/-- Witness for `comparator_selects_heaviest`: two remotes with stakes 10
and 20 and a local store holding an attestation at `("QmDep", 100)`. -/
theorem comparator_selects_heaviest_witness :
    ∃ sel, selectHeaviest [⟨"0xbb", 10, ["0xs1"]⟩, ⟨"0xaa", 20, ["0xs2"]⟩] = some sel ∧
      sel ∈ [⟨"0xbb", 10, ["0xs1"]⟩, (⟨"0xaa", 20, ["0xs2"]⟩ : Attestation)] ∧
      (∀ r ∈ [⟨"0xbb", 10, ["0xs1"]⟩, (⟨"0xaa", 20, ["0xs2"]⟩ : Attestation)],
        r.stake_weight < sel.stake_weight ∨
          (r.stake_weight = sel.stake_weight ∧ sel.npoi ≤ r.npoi)) ∧
      (sel.npoi = Attestation.npoi ⟨"0xaa", 5, []⟩ →
        compare_attestations 100 [⟨"0xbb", 10, ["0xs1"]⟩, ⟨"0xaa", 20, ["0xs2"]⟩]
            [(("QmDep", 100), ⟨"0xaa", 5, []⟩)] "QmDep" =
          CompareOutcome.matched "QmDep" 100 sel.npoi) ∧
      (sel.npoi ≠ Attestation.npoi ⟨"0xaa", 5, []⟩ →
        compare_attestations 100 [⟨"0xbb", 10, ["0xs1"]⟩, ⟨"0xaa", 20, ["0xs2"]⟩]
            [(("QmDep", 100), ⟨"0xaa", 5, []⟩)] "QmDep" =
          CompareOutcome.divergent "QmDep" 100 (Attestation.npoi ⟨"0xaa", 5, []⟩)
            sel.npoi
            (sortByStakeDesc [⟨"0xbb", 10, ["0xs1"]⟩, ⟨"0xaa", 20, ["0xs2"]⟩])) :=
  comparator_selects_heaviest 100
    [⟨"0xbb", 10, ["0xs1"]⟩, ⟨"0xaa", 20, ["0xs2"]⟩]
    [(("QmDep", 100), ⟨"0xaa", 5, []⟩)] "QmDep" ⟨"0xaa", 5, []⟩
    (by decide) (by decide)

end PoiRadio
